import Mathlib

/-!
Verification development for the EasyInterns internship-aggregation
platform: a shallow embedding of the persisted-data schema, the frontend
search store and utility functions, and the normalization, deduplication,
contact-email and scrape-run components, together with proofs of the
documented properties.
-/

namespace EasyInterns

/-! ## Character-level utilities (frontend `utils.ts`) -/

/-- ASCII word character, JS regex `\w` = `[A-Za-z0-9_]`. -/
def jsIsWordChar (c : Char) : Bool := c.isAlphanum || c = '_'

/-- JS regex `\s` whitespace class (ASCII whitespace controls and the
Unicode space separators matched by JavaScript engines). -/
def jsIsSpace (c : Char) : Bool :=
  c = ' ' || c = '\t' || c = '\n' || c = '\x0b' || c = '\x0c' || c = '\r' ||
  c = ' ' || c = ' ' || decide (0x2000 ≤ c.toNat ∧ c.toNat ≤ 0x200a) ||
  c = ' ' || c = ' ' || c = ' ' || c = ' ' || c = '　' ||
  c = '﻿'

/-- Characters kept by `.replace(/[^\w\s-]/g, '')` in `slugify`. -/
def slugKeep (c : Char) : Bool := jsIsWordChar c || jsIsSpace c || c = '-'

/-- Characters collapsed by `.replace(/[\s_-]+/g, '-')` in `slugify`. -/
def slugSep (c : Char) : Bool := jsIsSpace c || c = '_' || c = '-'

/-- Hyphen test used by the final strip step of `slugify`. -/
def isDash (c : Char) : Bool := c = '-'

/-- Global replacement of every maximal run of `[\s_-]` by a single `'-'`;
the boolean argument records whether the previous character was in a run. -/
def slugCollapse : Bool → List Char → List Char
  | _, [] => []
  | prev, c :: cs =>
    if slugSep c then
      if prev then slugCollapse true cs else '-' :: slugCollapse true cs
    else c :: slugCollapse false cs

/-- `.replace(/^-+|-+$/g, '')`: strip the leading and the trailing hyphen run. -/
def slugStrip (l : List Char) : List Char :=
  List.rdropWhile isDash (List.dropWhile isDash l)

/-- Character-list body of `slugify`: lower-case, remove characters outside
`[\w\s-]`, collapse `[\s_-]` runs to single hyphens, strip outer hyphens
(case folding modelled at the ASCII level of `Char.toLower`). -/
def slugifyChars (l : List Char) : List Char :=
  slugStrip (slugCollapse false ((l.map Char.toLower).filter slugKeep))

/-- `slugify` from the frontend utility module. -/
def slugify (s : String) : String := ⟨slugifyChars s.data⟩

/-- JS `String.replace` with a literal pattern and empty replacement:
remove the first occurrence of `pat`, leave the list unchanged otherwise. -/
def removeFirstSub (pat : List Char) : List Char → List Char
  | [] => []
  | c :: cs =>
    if pat.isPrefixOf (c :: cs) then (c :: cs).drop pat.length
    else c :: removeFirstSub pat cs

/-- String wrapper for `removeFirstSub`, mirroring `host.replace('www.', '')`. -/
def jsReplaceFirst (pat s : String) : String := ⟨removeFirstSub pat.data s.data⟩

/-- `extractDomain` from the frontend utility module. The platform URL
parser (`new URL(url).hostname`) is abstracted as an oracle `parse`
returning the hostname on success and `none` when parsing throws; the
function's own logic — the `try`/`catch` returning `''` and the removal of
the first `"www."` occurrence — is embedded directly. -/
def extractDomain (parse : String → Option String) (url : String) : String :=
  match parse url with
  | some host => jsReplaceFirst "www." host
  | none => ""

/-! ## Text normalization for fingerprints -/

/-- Collapse every maximal whitespace run to one space (run state in the
boolean argument). -/
def collapseWS : Bool → List Char → List Char
  | _, [] => []
  | prev, c :: cs =>
    if jsIsSpace c then
      if prev then collapseWS true cs else ' ' :: collapseWS true cs
    else c :: collapseWS false cs

/-- Strip leading and trailing whitespace. -/
def trimWS (l : List Char) : List Char :=
  List.rdropWhile jsIsSpace (List.dropWhile jsIsSpace l)

/-- Modelled from the spec: the normalization step of the backend pipeline
is not part of the repository snapshot; per §4.2 text is case-folded and
whitespace-collapsed before fingerprinting. -/
def normText (s : String) : String :=
  ⟨trimWS (collapseWS false (s.data.map Char.toLower))⟩

/-! ## Frontend search store (`frontend-next/src/lib/store.ts`) -/

/-- `SearchFilters` from `frontend-next/src/types/index.ts`; every field is
optional, `none` modelling an absent key. -/
structure SearchFilters where
  query : Option String := none
  field_tags : Option (List String) := none
  modality : Option (List String) := none
  locations : Option (List String) := none
  salary_min : Option Int := none
  salary_max : Option Int := none
  is_government : Option Bool := none
  posted_after : Option String := none
  company_ids : Option (List String) := none
  source_ids : Option (List String) := none
deriving DecidableEq

/-- The state held by `useSearchStore`: current filters and query text. -/
structure SearchState where
  filters : SearchFilters
  query : String
deriving DecidableEq

/-- The empty filter object `{}`. -/
def emptyFilters : SearchFilters := {}

/-- JS object spread `{ ...state.filters, ...newFilters }`: keys present in
the update win, absent keys keep the previous value. -/
def mergeFilters (old new : SearchFilters) : SearchFilters where
  query := new.query.or old.query
  field_tags := new.field_tags.or old.field_tags
  modality := new.modality.or old.modality
  locations := new.locations.or old.locations
  salary_min := new.salary_min.or old.salary_min
  salary_max := new.salary_max.or old.salary_max
  is_government := new.is_government.or old.is_government
  posted_after := new.posted_after.or old.posted_after
  company_ids := new.company_ids.or old.company_ids
  source_ids := new.source_ids.or old.source_ids

/-- `setFilters` of `useSearchStore`: merge the partial update into the
current filters, leaving the query untouched. -/
def setFilters (p : SearchFilters) (s : SearchState) : SearchState :=
  { s with filters := mergeFilters s.filters p }

/-- `setQuery` of `useSearchStore`. -/
def setQuery (q : String) (s : SearchState) : SearchState := { s with query := q }

/-- `clearFilters` of `useSearchStore`: reset filters to `{}` and query to `''`. -/
def clearFilters (_ : SearchState) : SearchState :=
  { filters := emptyFilters, query := "" }

/-- The browse page's Clear All button handler: `setFilters({})` followed by
`setQuery('')` — it does not call `clearFilters`. -/
def browseClearAll (s : SearchState) : SearchState :=
  setQuery "" (setFilters emptyFilters s)

/-- A search state with every filter key populated and a nonempty query. -/
def sampleSearchState : SearchState :=
  { filters :=
      { query := some "intern", field_tags := some ["software_engineering"],
        modality := some ["remote"], locations := some ["Toronto"],
        salary_min := some 20000, salary_max := some 60000,
        is_government := some false, posted_after := some "2024-05-01",
        company_ids := some ["c1"], source_ids := some ["job_bank"] },
    query := "software" }

/-! ## Contact emails -/

/-- `ContactEmail` from `frontend-next/src/types/index.ts`. -/
structure ContactEmail where
  email : String
  confidence : ℚ
  source_type : String
  verified : Bool
deriving DecidableEq

/-- The default display threshold for contact-email confidence (spec §6). -/
def displayThreshold : ℚ := 0.5

/-- Modelled from the spec: the backend serializer that delivers a posting's
contact-email list is not in the repository snapshot (only the consuming
pages are); per §6 a default-mode caller receives the entries with
confidence at or above the display threshold, while an authorized
show-all caller receives all of them. -/
def deliverContactEmails (showAll : Bool) (emails : List ContactEmail) :
    List ContactEmail :=
  if showAll then emails
  else emails.filter fun e => displayThreshold ≤ e.confidence

/-- A stored contact email of confidence 0.3. -/
def contactLow : ContactEmail :=
  { email := "careers@acme.com", confidence := 3 / 10,
    source_type := "description-scan", verified := false }

/-- A stored contact email of confidence 0.7. -/
def contactHigh : ContactEmail :=
  { email := "jane.doe@acme.com", confidence := 7 / 10,
    source_type := "mailto-link", verified := true }

/-- Confidence-descending comparison on contact emails. -/
def confGE (a b : ContactEmail) : Prop := b.confidence ≤ a.confidence

instance : DecidableRel confGE :=
  fun a b => inferInstanceAs (Decidable (b.confidence ≤ a.confidence))

/-- Modelled from the spec: the extractor orders each posting's kept
contact emails by confidence descending before they are stored and
delivered (§4.4); modelled as a sort under `confGE`. -/
def orderEmails (l : List ContactEmail) : List ContactEmail :=
  List.insertionSort confGE l

/-! ## Contact-email confidence scoring -/

/-- Modelled from the spec: the extraction signals of §4.4 observed for one
candidate email; the extractor itself is not in the repository snapshot. -/
structure EmailSignals where
  mailto : Bool
  patternMatch : Bool
  domainMatches : Bool
  mxVerified : Bool
  genericLocal : Bool
deriving DecidableEq

/-- Clamp a rational to the interval `[0, 1]`. -/
def clamp01 (x : ℚ) : ℚ := max 0 (min 1 x)

/-- Modelled from the spec: the additive signal combination of §4.4 —
mailto base 0.6, pattern-match base 0.3, company-domain bonus 0.25,
MX bonus 0.15, generic-local-part penalty 0.2. -/
def rawScore (s : EmailSignals) : ℚ :=
  (if s.mailto then 0.6 else 0) + (if s.patternMatch then 0.3 else 0) +
    (if s.domainMatches then 0.25 else 0) + (if s.mxVerified then 0.15 else 0) -
    (if s.genericLocal then 0.2 else 0)

/-- The final confidence: the raw signal sum capped at 1 and clamped at 0. -/
def confidenceScore (s : EmailSignals) : ℚ := clamp01 (rawScore s)

/-- A generic-local-part email found via a mailto link whose domain matches
the company domain, with no MX record. -/
def sigMailtoDomainGeneric : EmailSignals :=
  { mailto := true, patternMatch := false, domainMatches := true,
    mxVerified := false, genericLocal := true }

/-- A generic-local-part email found only by free-text pattern match,
with no MX record. -/
def sigPatternGeneric : EmailSignals :=
  { mailto := false, patternMatch := true, domainMatches := false,
    mxVerified := false, genericLocal := true }

/-! ## Modality values -/

/-- The modality union type of `frontend-next/src/types/index.ts` and the
value list of the database CHECK constraint on `internships.modality`. -/
def modalityEnum : List String := ["remote", "hybrid", "onsite"]

/-- The CHECK constraint `modality IN ('remote','hybrid','onsite')` on the
nullable `internships.modality` column (SQL three-valued logic: NULL
passes a CHECK). -/
def dbModalityCheck (m : Option String) : Bool :=
  match m with
  | none => true
  | some v => v = "remote" || v = "hybrid" || v = "onsite"

/-- `getModalityColor` from the frontend utility module (`part_008`). -/
def getModalityColor (m : String) : String :=
  if m = "remote" then "bg-green-100 text-green-800"
  else if m = "hybrid" then "bg-blue-100 text-blue-800"
  else if m = "onsite" then "bg-gray-100 text-gray-800"
  else "bg-gray-100 text-gray-800"

/-- `getModalityColor` from the standalone Home page (`part_012`), which
switches on `'on_site'` instead of `'onsite'`. -/
def getModalityColorHome (m : String) : String :=
  if m = "remote" then "bg-[#50FA7B] text-[#282A36]"
  else if m = "hybrid" then "bg-[#FFB86C] text-[#282A36]"
  else if m = "on_site" then "bg-[#FF79C6] text-[#282A36]"
  else "bg-[#6272A4] text-[#F8F8F2]"

/-- The non-empty option values of the Home page's Work Style filter
select (`part_012`), sent verbatim as the `modality` query parameter. -/
def homeModalityOptions : List String := ["remote", "hybrid", "on_site"]

/-! ## Scrape runs -/

/-- The `status` union of `ScrapeJob` in `frontend-next/src/types/index.ts`:
`'pending' | 'running' | 'completed' | 'failed'`. -/
inductive ScrapeJobStatus where
  | pending
  | running
  | completed
  | failed
deriving DecidableEq

/-- The string carried by each status value. -/
def scrapeStatusString : ScrapeJobStatus → String
  | .pending => "pending"
  | .running => "running"
  | .completed => "completed"
  | .failed => "failed"

/-- The status strings of the `ScrapeJob` type, in declaration order. -/
def scrapeStatusStrings : List String :=
  ["pending", "running", "completed", "failed"]

/-- Modelled from the spec: the orchestrator's transition relation of §4.5,
restricted to the status values the `ScrapeJob` type actually declares
(the type has no `cancelled` value). -/
def scrapeStepAllowed : ScrapeJobStatus → ScrapeJobStatus → Bool
  | .pending, .running => true
  | .running, .completed => true
  | .running, .failed => true
  | _, _ => false

/-! ## Persisted internships store (`init-db` DDL) -/

/-- The fingerprint domain: normalized company name, normalized title,
normalized location, rounded posting week. -/
abbrev Fingerprint := String × String × String × Nat

/-- A row of the `internships` table (the columns relevant to identity);
`companyName` stands for the `companies.name` value joined through
`company_id`, and `postingWeek` for the week-rounded `posting_date`. -/
structure InternshipRow where
  id : Nat
  title : String
  companyName : String
  location : String
  source : String
  external_id : String
  postingWeek : Nat
deriving DecidableEq

/-- Modelled from the spec: the fingerprint of §4.2 — a stable hash over
the normalized quadruple, modelled as the quadruple itself (the backend
pipeline computing it is not in the repository snapshot). -/
def rowFingerprint (r : InternshipRow) : Fingerprint :=
  (normText r.companyName, normText r.title, normText r.location, r.postingWeek)

/-- The column pair constrained by `UNIQUE(source, external_id)`. -/
def sameSourceKey (a b : InternshipRow) : Bool :=
  a.source = b.source && a.external_id = b.external_id

/-- SQL `INSERT` into `internships` under the DDL's only row-identity
constraint, `UNIQUE(source, external_id)`: the insert is rejected when the
pair already occurs, appended otherwise. -/
def insertInternship (t : List InternshipRow) (r : InternshipRow) :
    Option (List InternshipRow) :=
  if t.any (fun q => sameSourceKey q r) then none else some (t ++ [r])

/-- Two rows differ on the `(source, external_id)` key. -/
def KeyDistinct (a b : InternshipRow) : Prop :=
  ¬(a.source = b.source ∧ a.external_id = b.external_id)

instance : DecidableRel KeyDistinct :=
  fun a b =>
    inferInstanceAs (Decidable ¬(a.source = b.source ∧ a.external_id = b.external_id))

/-- The job-bank copy of the spec §8 scenario posting. -/
def rowJobbank : InternshipRow :=
  { id := 1, title := "Software Intern", companyName := "Acme",
    location := "Toronto, ON", source := "job_bank", external_id := "A1",
    postingWeek := 2835 }

/-- The talent.com mirror of the same posting: identical after
normalization, different source and external id. -/
def rowTalent : InternshipRow :=
  { id := 2, title := " software  intern ", companyName := "ACME",
    location := "toronto, on", source := "talent", external_id := "B9",
    postingWeek := 2835 }

/-! ## Normalization and deduplication pipeline -/

/-- `RawPosting` of spec §3: one adapter's view of a posting, with
`posted_week` the week-rounded `posted_at`. -/
structure RawPosting where
  source_id : String
  external_id : String
  title : String
  company_name : String
  location_text : String
  description_text : String
  apply_url : String
  posted_week : Nat
deriving DecidableEq

/-- The merged field values of one canonical posting; the posting's `id`
and `fingerprint` are the key under which the data is stored, so the
stable `id` generated at first sight is determined by the key. -/
structure EntityData where
  title : String
  company_name : String
  location_text : String
  description_text : String
  apply_url : String
  source_ids : Finset String
deriving DecidableEq

/-- Completeness key of a text value: length first, lexicographic
tie-break, so that the selection of the more complete value is a `max`
under a linear order. -/
def textKey (s : String) : Lex (Nat × String) := toLex (s.length, s)

/-- Modelled from the spec: "keeping the most complete field values
(longer description wins)" — keep the longer text, with a deterministic
symmetric tie-break on equal lengths. -/
def betterText (a b : String) : String :=
  (ofLex (max (textKey a) (textKey b))).2

/-- Modelled from the spec: the fingerprint of a raw posting (§4.2) — the
normalized company, title and location with the rounded posting week. -/
def rawFingerprint (r : RawPosting) : Fingerprint :=
  (normText r.company_name, normText r.title, normText r.location_text,
    r.posted_week)

/-- First-sight canonical data of a raw posting. -/
def toEntity (r : RawPosting) : EntityData :=
  { title := r.title, company_name := r.company_name,
    location_text := r.location_text, description_text := r.description_text,
    apply_url := r.apply_url, source_ids := {r.source_id} }

/-- Modelled from the spec: the merge of §4.2 — union the source ids and
keep the most complete value of each text field. -/
def mergeData (e f : EntityData) : EntityData :=
  { title := betterText e.title f.title,
    company_name := betterText e.company_name f.company_name,
    location_text := betterText e.location_text f.location_text,
    description_text := betterText e.description_text f.description_text,
    apply_url := betterText e.apply_url f.apply_url,
    source_ids := e.source_ids ∪ f.source_ids }

/-- The dedup index: canonical postings keyed by fingerprint. -/
abbrev DedupIndex := Fingerprint → Option EntityData

/-- The empty dedup index. -/
def emptyIndex : DedupIndex := fun _ => none

/-- Modelled from the spec: ingesting one raw posting (§4.2) — on
fingerprint match merge into the existing entity, otherwise create a new
one under the posting's fingerprint. -/
def ingest (s : DedupIndex) (r : RawPosting) : DedupIndex := fun fp =>
  if fp = rawFingerprint r then
    match s fp with
    | none => some (toEntity r)
    | some e => some (mergeData e (toEntity r))
  else s fp

/-- Run the normalization-and-dedup pipeline over a batch of raw postings. -/
def runPipeline (s : DedupIndex) (rs : List RawPosting) : DedupIndex :=
  rs.foldl ingest s

/-! ## Theorems: character-level lemmas -/

theorem toNat_ofNat_valid (n : Nat) (h : n < 0xd800) : (Char.ofNat n).toNat = n := by
  rw [Char.ofNat, dif_pos (Or.inl (by omega))]
  rfl

theorem toLower_toLower (c : Char) : c.toLower.toLower = c.toLower := by
  by_cases h : c.toNat ≥ 65 ∧ c.toNat ≤ 90
  · have h1 : c.toLower = Char.ofNat (c.toNat + 32) := by
      simp [Char.toLower, h]
    have h2 : (Char.ofNat (c.toNat + 32)).toNat = c.toNat + 32 :=
      toNat_ofNat_valid _ (by omega)
    rw [h1]
    simp [Char.toLower, h2]
    omega
  · have h1 : c.toLower = c := by
      simp [Char.toLower, h]
    rw [h1, h1]

/-- Adjacent characters are never both separators. -/
def SepFree (a b : Char) : Prop := ¬(slugSep a = true ∧ slugSep b = true)

theorem mem_slugCollapse {c : Char} :
    ∀ {prev : Bool} {l : List Char}, c ∈ slugCollapse prev l →
      c = '-' ∨ (c ∈ l ∧ slugSep c = false) := by
  intro prev l
  induction l generalizing prev with
  | nil => simp [slugCollapse]
  | cons a as ih =>
    intro hmem
    cases hsc : slugSep a with
    | true =>
      cases prev with
      | true =>
        simp only [slugCollapse, hsc, if_true] at hmem
        rcases ih hmem with h | h
        · exact Or.inl h
        · exact Or.inr ⟨List.mem_cons_of_mem _ h.1, h.2⟩
      | false =>
        simp [slugCollapse, hsc] at hmem
        rcases hmem with rfl | hmem
        · exact Or.inl rfl
        · rcases ih hmem with h | h
          · exact Or.inl h
          · exact Or.inr ⟨List.mem_cons_of_mem _ h.1, h.2⟩
    | false =>
      simp [slugCollapse, hsc] at hmem
      rcases hmem with rfl | hmem
      · exact Or.inr ⟨List.mem_cons_self _ _, hsc⟩
      · rcases ih hmem with h | h
        · exact Or.inl h
        · exact Or.inr ⟨List.mem_cons_of_mem _ h.1, h.2⟩

theorem head_slugCollapse_true {l : List Char} {c : Char}
    (h : (slugCollapse true l).head? = some c) : slugSep c = false := by
  induction l with
  | nil => simp [slugCollapse] at h
  | cons a as ih =>
    cases hsc : slugSep a with
    | true =>
      simp only [slugCollapse, hsc, if_true] at h
      exact ih h
    | false =>
      simp [slugCollapse, hsc] at h
      exact h ▸ hsc

theorem chain'_slugCollapse : ∀ (prev : Bool) (l : List Char),
    List.Chain' SepFree (slugCollapse prev l) := by
  intro prev l
  induction l generalizing prev with
  | nil => simp [slugCollapse]
  | cons a as ih =>
    cases hsc : slugSep a with
    | true =>
      cases prev with
      | true =>
        simp only [slugCollapse, hsc, if_true]
        exact ih true
      | false =>
        simp only [slugCollapse, hsc, if_true, Bool.false_eq_true, if_false]
        rw [List.chain'_cons']
        refine ⟨?_, ih true⟩
        intro y hy
        have hns : slugSep y = false := head_slugCollapse_true hy
        exact fun hcon => by simp [hns] at hcon
    | false =>
      simp only [slugCollapse, hsc, Bool.false_eq_true, if_false]
      rw [List.chain'_cons']
      refine ⟨?_, ih false⟩
      intro y hy
      exact fun hcon => by simp [hsc] at hcon

theorem slugCollapse_fix (l : List Char)
    (hd : ∀ c ∈ l, slugSep c = true → c = '-')
    (hc : List.Chain' SepFree l) :
    ((l.head?.all fun c => !slugSep c) = true → slugCollapse true l = l) ∧
      slugCollapse false l = l := by
  induction l with
  | nil => simp [slugCollapse]
  | cons a as ih =>
    have hd' : ∀ c ∈ as, slugSep c = true → c = '-' := fun c hc' =>
      hd c (List.mem_cons_of_mem _ hc')
    have hc' : List.Chain' SepFree as := (List.chain'_cons'.mp hc).2
    have hr : ∀ y ∈ as.head?, SepFree a y := (List.chain'_cons'.mp hc).1
    cases hsc : slugSep a with
    | true =>
      have haeq : a = '-' := hd a (List.mem_cons_self _ _) hsc
      have hhead : (as.head?.all fun c => !slugSep c) = true := by
        cases hh : as.head? with
        | none => simp
        | some y =>
          have hsf := hr y (by simp [hh])
          simp only [Option.all_some]
          cases hy : slugSep y with
          | true => exact absurd ⟨hsc, hy⟩ hsf
          | false => simp
      constructor
      · intro habs
        simp [hsc] at habs
      · simp only [slugCollapse, hsc, if_true, Bool.false_eq_true, if_false]
        rw [(ih hd' hc').1 hhead, haeq]
    | false =>
      constructor
      · intro _
        simp only [slugCollapse, hsc, Bool.false_eq_true, if_false]
        rw [(ih hd' hc').2]
      · simp only [slugCollapse, hsc, Bool.false_eq_true, if_false]
        rw [(ih hd' hc').2]

theorem slugStrip_within (l : List Char) : slugStrip l <:+: l := by
  unfold slugStrip
  have h1 := List.rdropWhile_prefix isDash (List.dropWhile isDash l)
  have h2 := List.dropWhile_suffix (l := l) isDash
  exact h1.isInfix.trans h2.isInfix

theorem slugStrip_head_not {l : List Char} {c : Char}
    (h : (slugStrip l).head? = some c) : isDash c = false := by
  unfold slugStrip at h
  obtain ⟨t, ht⟩ := List.rdropWhile_prefix isDash (List.dropWhile isDash l)
  have hor : (List.dropWhile isDash l).head? = some c := by
    rw [← ht, List.head?_append, h, Option.or_some]
  have hmatch := List.head?_dropWhile_not isDash l
  rw [hor] at hmatch
  exact hmatch

theorem slugStrip_idem (l : List Char) : slugStrip (slugStrip l) = slugStrip l := by
  have hlast : List.rdropWhile isDash (slugStrip l) = slugStrip l := by
    unfold slugStrip
    exact List.rdropWhile_idempotent _ _
  have hdrop : List.dropWhile isDash (slugStrip l) = slugStrip l := by
    rw [List.dropWhile_eq_self_iff]
    intro hl
    have hne : slugStrip l ≠ [] := by
      intro hcon
      rw [hcon] at hl
      simp at hl
    have hh : (slugStrip l).head? = some ((slugStrip l).head hne) :=
      List.head?_eq_head hne
    have hd := slugStrip_head_not hh
    rw [List.head_eq_getElem] at hd
    simp [hd]
  show List.rdropWhile isDash (List.dropWhile isDash (slugStrip l)) = slugStrip l
  rw [hdrop, hlast]

theorem map_self_of_fix {l : List Char} {f : Char → Char} (h : ∀ c ∈ l, f c = c) :
    l.map f = l := by
  induction l with
  | nil => rfl
  | cons a as ih =>
    simp only [List.map_cons, h a (List.mem_cons_self a as),
      ih fun c hc => h c (List.mem_cons_of_mem _ hc)]

theorem slugifyChars_idem (l : List Char) :
    slugifyChars (slugifyChars l) = slugifyChars l := by
  set mid := slugCollapse false ((l.map Char.toLower).filter slugKeep) with hmid
  set out := slugStrip mid with hout
  have hmem : ∀ c ∈ out,
      c = '-' ∨ (c ∈ (l.map Char.toLower).filter slugKeep ∧ slugSep c = false) := by
    intro c hcmem
    have hcm : c ∈ mid := (slugStrip_within mid).sublist.subset hcmem
    exact mem_slugCollapse hcm
  have hlow : ∀ c ∈ out, Char.toLower c = c := by
    intro c hcmem
    rcases hmem c hcmem with rfl | ⟨hmem2, _⟩
    · decide
    · obtain ⟨d, _, rfl⟩ := List.mem_map.mp (List.mem_of_mem_filter hmem2)
      exact toLower_toLower d
  have hkeep : ∀ c ∈ out, slugKeep c = true := by
    intro c hcmem
    rcases hmem c hcmem with rfl | ⟨hmem2, _⟩
    · decide
    · exact List.of_mem_filter hmem2
  have hdash : ∀ c ∈ out, slugSep c = true → c = '-' := by
    intro c hcmem hsep
    rcases hmem c hcmem with rfl | ⟨_, hns⟩
    · rfl
    · rw [hns] at hsep
      exact absurd hsep (by simp)
  have hchain : List.Chain' SepFree out :=
    List.Chain'.infix (chain'_slugCollapse false _) (slugStrip_within mid)
  have hmap : out.map Char.toLower = out := map_self_of_fix hlow
  have hfil : out.filter slugKeep = out := List.filter_eq_self.mpr hkeep
  have hcol : slugCollapse false out = out := (slugCollapse_fix out hdash hchain).2
  show slugStrip (slugCollapse false ((out.map Char.toLower).filter slugKeep)) = out
  rw [hmap, hfil, hcol, hout]
  exact slugStrip_idem mid

/-- C9: `slugify` is idempotent — lower-casing, removing characters outside
`[\w\s-]`, collapsing `[\s_-]` runs to single hyphens and stripping outer
hyphens, applied a second time, changes nothing. -/
theorem slugify_idem (s : String) : slugify (slugify s) = slugify s := by
  unfold slugify
  show String.mk (slugifyChars (slugifyChars s.data)) = String.mk (slugifyChars s.data)
  exact congrArg String.mk (slugifyChars_idem s.data)

/-! ## Theorems: extractDomain (C10) -/

theorem removeFirstSub_eq_self {pat l : List Char} (h : ¬ pat <:+: l) :
    removeFirstSub pat l = l := by
  induction l with
  | nil => rfl
  | cons c cs ih =>
    rw [removeFirstSub, if_neg, ih]
    · intro hcs
      obtain ⟨s, t, hst⟩ := hcs
      exact h ⟨c :: s, t, by simp [hst]⟩
    · intro hp
      have hpre : pat <+: c :: cs := List.isPrefixOf_iff_prefix.mp hp
      obtain ⟨t, hT⟩ := hpre
      exact h ⟨[], t, by simpa using hT⟩

theorem removeFirstSub_splits {pat l : List Char} (hne : pat ≠ [])
    (h : pat <:+: l) :
    ∃ a b, l = a ++ pat ++ b ∧ removeFirstSub pat l = a ++ b := by
  induction l with
  | nil =>
    obtain ⟨s, t, hst⟩ := h
    rw [List.append_assoc] at hst
    rcases List.append_eq_nil.mp hst with ⟨-, hpt⟩
    rcases List.append_eq_nil.mp hpt with ⟨hp, -⟩
    exact absurd hp hne
  | cons c cs ih =>
    by_cases hp : pat.isPrefixOf (c :: cs) = true
    · have hpre : pat <+: c :: cs := List.isPrefixOf_iff_prefix.mp hp
      obtain ⟨b, hb⟩ := hpre
      refine ⟨[], b, by simpa using hb.symm, ?_⟩
      rw [removeFirstSub, if_pos hp, ← hb, List.drop_left]
      simp
    · have hcs : pat <:+: cs := by
        obtain ⟨s, t, hst⟩ := h
        cases s with
        | nil =>
          exfalso
          apply hp
          rw [List.isPrefixOf_iff_prefix]
          exact ⟨t, by simpa using hst⟩
        | cons s0 sr =>
          have hst' : s0 :: (sr ++ pat ++ t) = c :: cs := by
            simpa [List.append_assoc] using hst
          exact ⟨sr, t, by simpa [List.append_assoc] using congrArg List.tail hst'⟩
      obtain ⟨a, b, hab, hr⟩ := ih hcs
      refine ⟨c :: a, b, by simp [hab], ?_⟩
      rw [removeFirstSub, if_neg hp, hr]
      simp

/-- C10: `extractDomain` is total and never throws — for every input it
returns the parse oracle's hostname with the first occurrence of `"www."`
removed when the URL parses, and the empty string when parsing fails. -/
theorem extractDomain_total (parse : String → Option String) (url : String) :
    (parse url = none → extractDomain parse url = "") ∧
      ∀ host, parse url = some host →
        (¬ ("www.".data <:+: host.data) → extractDomain parse url = host) ∧
          (("www.".data <:+: host.data) →
            ∃ a b, host.data = a ++ "www.".data ++ b ∧
              (extractDomain parse url).data = a ++ b) := by
  constructor
  · intro h
    simp [extractDomain, h]
  · intro host hh
    constructor
    · intro hni
      simp only [extractDomain, hh]
      unfold jsReplaceFirst
      rw [removeFirstSub_eq_self hni]
    · intro hinf
      obtain ⟨a, b, hab, hr⟩ := removeFirstSub_splits (by decide) hinf
      exact ⟨a, b, hab, by simpa [extractDomain, hh, jsReplaceFirst] using hr⟩

/-- C10 witness: concrete runs of `extractDomain` through the theorem — a
failing parse yields `""`, a hostname without `"www."` is returned intact,
and the first `"www."` occurrence is removed from a hostname containing it. -/
theorem extractDomain_total_witness :
    extractDomain (fun _ => none) "not a url" = "" ∧
      extractDomain (fun _ => some "example.org") "https://example.org" =
        "example.org" ∧
      ∃ a b, ("app.www.example.com").data = a ++ ("www.").data ++ b ∧
        (extractDomain (fun _ => some "app.www.example.com")
            "https://app.www.example.com").data = a ++ b := by
  refine ⟨(extractDomain_total (fun _ => none) "not a url").1 rfl, ?_, ?_⟩
  · exact ((extractDomain_total (fun _ => some "example.org")
      "https://example.org").2 "example.org" rfl).1 (by decide)
  · exact ((extractDomain_total (fun _ => some "app.www.example.com")
      "https://app.www.example.com").2 "app.www.example.com" rfl).2 (by decide)

/-! ## Theorems: search store (C8) -/

/-- C8: `setFilters` merges its argument into the current filters — the
query and every filter key absent from the argument keep their previous
value, and `setFilters` with the empty object is the identity; only
`clearFilters` resets the filters to `{}` and the query to `''`, while the
browse page's Clear All button runs `setFilters({})` then `setQuery('')`,
leaving the previously set filters in place. -/
theorem search_store_filters_behaviour (s : SearchState) (p : SearchFilters) :
    (setFilters p s).query = s.query ∧
      (p.query = none → (setFilters p s).filters.query = s.filters.query) ∧
      (p.field_tags = none →
        (setFilters p s).filters.field_tags = s.filters.field_tags) ∧
      (p.modality = none →
        (setFilters p s).filters.modality = s.filters.modality) ∧
      (p.locations = none →
        (setFilters p s).filters.locations = s.filters.locations) ∧
      (p.salary_min = none →
        (setFilters p s).filters.salary_min = s.filters.salary_min) ∧
      (p.salary_max = none →
        (setFilters p s).filters.salary_max = s.filters.salary_max) ∧
      (p.is_government = none →
        (setFilters p s).filters.is_government = s.filters.is_government) ∧
      (p.posted_after = none →
        (setFilters p s).filters.posted_after = s.filters.posted_after) ∧
      (p.company_ids = none →
        (setFilters p s).filters.company_ids = s.filters.company_ids) ∧
      (p.source_ids = none →
        (setFilters p s).filters.source_ids = s.filters.source_ids) ∧
      setFilters emptyFilters s = s ∧
      clearFilters s = { filters := emptyFilters, query := "" } ∧
      browseClearAll s = { s with query := "" } := by
  refine ⟨rfl, ?_, ?_, ?_, ?_, ?_, ?_, ?_, ?_, ?_, ?_, rfl, rfl, rfl⟩ <;>
    · intro h
      simp [setFilters, mergeFilters, h]

/-- C8 witness: on a concrete state with every filter key set, applying the
theorem at the empty update discharges each absent-key hypothesis — all
keys survive `setFilters({})`, and the Clear All handler clears only the
query. -/
theorem search_store_filters_behaviour_witness :
    (setFilters emptyFilters sampleSearchState).filters.field_tags =
        sampleSearchState.filters.field_tags ∧
      (setFilters emptyFilters sampleSearchState).filters.modality =
        sampleSearchState.filters.modality ∧
      setFilters emptyFilters sampleSearchState = sampleSearchState ∧
      browseClearAll sampleSearchState = { sampleSearchState with query := "" } := by
  have h := search_store_filters_behaviour sampleSearchState emptyFilters
  exact ⟨h.2.2.1 rfl, h.2.2.2.1 rfl, h.2.2.2.2.2.2.2.2.2.2.2.1,
    h.2.2.2.2.2.2.2.2.2.2.2.2.2⟩

/-! ## Theorems: contact-email delivery (C2, C5) -/

/-- C2: a default-mode caller receives exactly the stored contact emails
whose confidence is at or above the display threshold (default 0.5), and a
show-all caller receives all of them; in particular, of two stored emails
with confidences 0.3 and 0.7 the default-mode caller sees only the 0.7
one while the show-all caller sees both. -/
theorem contact_email_display_gating :
    (∀ (emails : List ContactEmail) (e : ContactEmail),
        (e ∈ deliverContactEmails false emails ↔
          e ∈ emails ∧ displayThreshold ≤ e.confidence) ∧
        deliverContactEmails true emails = emails) ∧
      deliverContactEmails false [contactLow, contactHigh] = [contactHigh] ∧
      deliverContactEmails true [contactLow, contactHigh] =
        [contactLow, contactHigh] := by
  refine ⟨fun emails e => ⟨?_, rfl⟩, ?_, rfl⟩
  · simp [deliverContactEmails, List.mem_filter]
  · simp only [deliverContactEmails, Bool.false_eq_true, if_false]
    rw [List.filter_cons, List.filter_cons]
    norm_num [contactLow, contactHigh, displayThreshold]

/-- C5: the delivered contact-email collection is ordered by confidence
descending — any entry appearing earlier has confidence at least that of
any later entry — and it is a permutation of the stored collection. -/
theorem contact_emails_sorted_desc (l : List ContactEmail) :
    (orderEmails l).Pairwise (fun a b => b.confidence ≤ a.confidence) ∧
      (orderEmails l).Perm l := by
  haveI : IsTotal ContactEmail confGE := ⟨fun a b => le_total b.confidence a.confidence⟩
  haveI : IsTrans ContactEmail confGE := ⟨fun _ _ _ h1 h2 => le_trans h2 h1⟩
  exact ⟨List.sorted_insertionSort confGE l, List.perm_insertionSort confGE l⟩

/-! ## Theorems: confidence scoring (C7) -/

theorem clamp01_nonneg (x : ℚ) : 0 ≤ clamp01 x := le_max_left 0 _

theorem clamp01_le_one (x : ℚ) : clamp01 x ≤ 1 :=
  max_le (by norm_num) (min_le_left 1 x)

/-- C7 counterexample: a generic-local-part email with no MX record, found
through a mailto link whose domain matches the company domain, scores
0.6 + 0.25 − 0.2 = 0.65, at or above the default display threshold — the
claim that every generic-local, MX-less email scores below the threshold
is false. -/
theorem confidence_generic_counterexample :
    sigMailtoDomainGeneric.genericLocal = true ∧
      sigMailtoDomainGeneric.mxVerified = false ∧
      displayThreshold ≤ confidenceScore sigMailtoDomainGeneric := by
  refine ⟨rfl, rfl, ?_⟩
  norm_num [confidenceScore, rawScore, clamp01, sigMailtoDomainGeneric,
    displayThreshold, min_def, max_def]

/-- C7 (amended): every confidence score lies in `[0, 1]` — the additive
combination is capped at 1 and a penalty-driven negative sum is clamped to
0 — and an email with a generic local part and no MX record scores below
the default display threshold whenever it does not combine the mailto-link
base with a further pattern-match or company-domain bonus. -/
theorem confidence_bounds_amended (s : EmailSignals) :
    (0 ≤ confidenceScore s ∧ confidenceScore s ≤ 1) ∧
      (s.genericLocal = true → s.mxVerified = false →
        (s.mailto && (s.patternMatch || s.domainMatches)) = false →
        confidenceScore s < displayThreshold) := by
  refine ⟨⟨clamp01_nonneg _, clamp01_le_one _⟩, ?_⟩
  obtain ⟨m, p, d, x, g⟩ := s
  intro hg hx hmb
  cases g with
  | false => simp at hg
  | true =>
    cases x with
    | true => simp at hx
    | false =>
      cases m <;> cases p <;> cases d <;>
        norm_num [confidenceScore, rawScore, clamp01, displayThreshold,
          min_def, max_def] at hmb ⊢

/-- C7 witness: the bounds and the amended threshold statement exercised at
the pattern-match-only generic signal set, whose score is 0.1. -/
theorem confidence_bounds_amended_witness :
    (0 ≤ confidenceScore sigPatternGeneric ∧
        confidenceScore sigPatternGeneric ≤ 1) ∧
      confidenceScore sigPatternGeneric < displayThreshold :=
  ⟨(confidence_bounds_amended sigPatternGeneric).1,
    (confidence_bounds_amended sigPatternGeneric).2 rfl rfl rfl⟩

/-! ## Theorems: modality values (C6) -/

/-- C6: evaluation at the divergent inputs — the Home page (`part_012`)
offers and colour-codes the filter value `"on_site"`, which is outside the
modality enum of the type layer and rejected by the database CHECK
constraint, while the stored enum value `"onsite"` falls through to the
page's unknown-modality default colour. -/
theorem modality_on_site_divergence :
    homeModalityOptions.contains "on_site" = true ∧
      modalityEnum.contains "on_site" = false ∧
      dbModalityCheck (some "on_site") = false ∧
      dbModalityCheck (some "onsite") = true ∧
      getModalityColorHome "onsite" = "bg-[#6272A4] text-[#F8F8F2]" ∧
      getModalityColorHome "on_site" = "bg-[#FF79C6] text-[#282A36]" ∧
      getModalityColor "onsite" = "bg-gray-100 text-gray-800" := by
  decide

/-! ## Theorems: scrape-run status (C4) -/

/-- C4 counterexample: `cancelled` is not a status value of the `ScrapeJob`
type — its status union is exactly pending, running, completed, failed —
so no scrape run can ever carry the status `cancelled`. -/
theorem scrape_status_no_cancelled :
    scrapeStatusStrings.contains "cancelled" = false ∧
      scrapeStatusString ScrapeJobStatus.pending ≠ "cancelled" ∧
      scrapeStatusString ScrapeJobStatus.running ≠ "cancelled" ∧
      scrapeStatusString ScrapeJobStatus.completed ≠ "cancelled" ∧
      scrapeStatusString ScrapeJobStatus.failed ≠ "cancelled" := by
  decide

/-- C4 (amended): over the status values the `ScrapeJob` type declares,
the run status changes only along pending → running → \x7bcompleted,
failed\x7d; completed and failed admit no further transition, and both
terminal statuses are reachable from pending. -/
theorem scrape_status_machine :
    (∀ a b : ScrapeJobStatus,
        scrapeStepAllowed a b = true ↔
          (a = ScrapeJobStatus.pending ∧ b = ScrapeJobStatus.running) ∨
            (a = ScrapeJobStatus.running ∧
              (b = ScrapeJobStatus.completed ∨ b = ScrapeJobStatus.failed))) ∧
      (∀ b : ScrapeJobStatus,
        scrapeStepAllowed ScrapeJobStatus.completed b = false ∧
          scrapeStepAllowed ScrapeJobStatus.failed b = false) ∧
      scrapeStepAllowed ScrapeJobStatus.pending ScrapeJobStatus.running = true ∧
      scrapeStepAllowed ScrapeJobStatus.running ScrapeJobStatus.completed = true ∧
      scrapeStepAllowed ScrapeJobStatus.running ScrapeJobStatus.failed = true := by
  refine ⟨fun a b => ?_, fun b => ?_, rfl, rfl, rfl⟩
  · cases a <;> cases b <;> decide
  · cases b <;> decide

/-! ## Theorems: internships store (C1) -/

/-- C1 counterexample: the spec §8 scenario posting, mirrored on job_bank
and talent.com with different external ids, passes the store's only
uniqueness constraint twice — the persisted table holds two distinct rows
with identical fingerprints, so fingerprints of persisted postings are not
pairwise distinct and the second ingest did not merge. -/
theorem fingerprint_not_unique_counterexample :
    insertInternship [] rowJobbank = some [rowJobbank] ∧
      insertInternship [rowJobbank] rowTalent = some [rowJobbank, rowTalent] ∧
      rowFingerprint rowJobbank = rowFingerprint rowTalent ∧
      rowJobbank ≠ rowTalent := by
  decide

/-- C1 (amended): the persisted postings table enforces uniqueness of
`(source, external_id)`, not of the fingerprint — an insert whose
`(source, external_id)` pair already occurs is rejected as a duplicate of
that row, every successful insert appends the row, and tables with
pairwise-distinct source keys stay pairwise distinct; the same posting
mirrored on two sources with differing external ids therefore persists as
two rows. -/
theorem insert_internship_source_key_unique (t : List InternshipRow)
    (r : InternshipRow) :
    (insertInternship t r = none ↔
        ∃ q ∈ t, q.source = r.source ∧ q.external_id = r.external_id) ∧
      (t.Pairwise KeyDistinct → ∀ t', insertInternship t r = some t' →
        t' = t ++ [r] ∧ t'.Pairwise KeyDistinct) := by
  by_cases h : t.any (fun q => sameSourceKey q r) = true
  · constructor
    · simp only [insertInternship, h, if_true]
      constructor
      · intro _
        obtain ⟨q, hq, hkey⟩ := List.any_eq_true.mp h
        refine ⟨q, hq, ?_⟩
        simpa [sameSourceKey, Bool.and_eq_true, decide_eq_true_eq] using hkey
      · intro _
        trivial
    · intro _ t' ht'
      simp [insertInternship, h] at ht'
  · have hnot : ∀ q ∈ t, ¬(q.source = r.source ∧ q.external_id = r.external_id) := by
      intro q hq hcon
      apply h
      rw [List.any_eq_true]
      exact ⟨q, hq, by simp [sameSourceKey, hcon.1, hcon.2]⟩
    constructor
    · simp only [insertInternship, h, Bool.false_eq_true, if_false]
      constructor
      · intro hcon
        exact absurd hcon (by simp)
      · intro ⟨q, hq, hkey⟩
        exact absurd hkey (hnot q hq)
    · intro hpw t' ht'
      have ht'' : t' = t ++ [r] := by
        simpa [insertInternship, h] using ht'.symm
      refine ⟨ht'', ?_⟩
      rw [ht'', List.pairwise_append]
      refine ⟨hpw, List.pairwise_singleton _ _, ?_⟩
      intro q hq b hb
      rw [List.mem_singleton] at hb
      subst hb
      exact hnot q hq

/-- C1 witness: the amended statement exercised on the concrete two-source
scenario — inserting the talent.com mirror into the table holding the
job_bank row succeeds, appends, and keeps the source keys distinct. -/
theorem insert_internship_source_key_unique_witness :
    [rowJobbank, rowTalent] = [rowJobbank] ++ [rowTalent] ∧
      List.Pairwise KeyDistinct [rowJobbank, rowTalent] :=
  (insert_internship_source_key_unique [rowJobbank] rowTalent).2
    (by decide) [rowJobbank, rowTalent] (by decide)

/-! ## Theorems: dedup pipeline (C3) -/

theorem textKey_betterText (a b : String) :
    textKey (betterText a b) = max (textKey a) (textKey b) := by
  unfold betterText
  rcases max_choice (textKey a) (textKey b) with h | h <;> rw [h] <;> rfl

theorem betterText_comm (a b : String) : betterText a b = betterText b a := by
  unfold betterText
  rw [max_comm]

theorem betterText_assoc (a b c : String) :
    betterText (betterText a b) c = betterText a (betterText b c) := by
  show (ofLex (max (textKey (betterText a b)) (textKey c))).2 =
    (ofLex (max (textKey a) (textKey (betterText b c)))).2
  rw [textKey_betterText, textKey_betterText, max_assoc]

theorem betterText_self (a : String) : betterText a a = a := by
  unfold betterText
  rw [max_self]
  rfl

theorem mergeData_comm (e f : EntityData) : mergeData e f = mergeData f e := by
  simp [mergeData, betterText_comm, Finset.union_comm]

theorem mergeData_assoc (e f g : EntityData) :
    mergeData (mergeData e f) g = mergeData e (mergeData f g) := by
  simp [mergeData, betterText_assoc, Finset.union_assoc]

theorem mergeData_self (e : EntityData) : mergeData e e = e := by
  simp [mergeData, betterText_self]

theorem mergeData_right_comm (e x y : EntityData) :
    mergeData (mergeData e x) y = mergeData (mergeData e y) x := by
  rw [mergeData_assoc, mergeData_assoc, mergeData_comm x y]

theorem ingest_ingest_comm (s : DedupIndex) (a b : RawPosting) :
    ingest (ingest s a) b = ingest (ingest s b) a := by
  funext fp
  by_cases ha : fp = rawFingerprint a <;> by_cases hb : fp = rawFingerprint b
  · subst ha
    have hab : rawFingerprint a = rawFingerprint b := hb
    simp only [ingest, hab]
    cases hs : s (rawFingerprint b) with
    | none => simp [hs, mergeData_comm (toEntity a) (toEntity b)]
    | some e => simp [hs, mergeData_right_comm e (toEntity a) (toEntity b)]
  · subst ha
    simp [ingest, hb]
  · subst hb
    simp [ingest, ha]
  · simp [ingest, ha, hb]

theorem foldl_ingest_pull (t : DedupIndex) (r : RawPosting) :
    ∀ rs : List RawPosting,
      List.foldl ingest (ingest t r) rs = ingest (List.foldl ingest t rs) r := by
  intro rs
  induction rs generalizing t with
  | nil => rfl
  | cons q qs ih =>
    simp only [List.foldl_cons]
    rw [ingest_ingest_comm t r q, ih (ingest t q)]

theorem ingest_twice (s : DedupIndex) (r : RawPosting) :
    ingest (ingest s r) r = ingest s r := by
  funext fp
  by_cases h : fp = rawFingerprint r
  · subst h
    simp only [ingest]
    cases hs : s (rawFingerprint r) with
    | none => simp [hs, mergeData_self]
    | some e =>
      simp [hs, mergeData_assoc, mergeData_self]
  · simp [ingest, h]

theorem runPipeline_twice (s : DedupIndex) (l : List RawPosting) :
    runPipeline (runPipeline s l) l = runPipeline s l := by
  induction l generalizing s with
  | nil => rfl
  | cons r rs ih =>
    show List.foldl ingest (ingest (List.foldl ingest (ingest s r) rs) r) rs =
      List.foldl ingest (ingest s r) rs
    rw [← foldl_ingest_pull (ingest s r) r rs, ingest_twice]
    exact ih (ingest s r)

/-- C3: the normalization-and-dedup merge is idempotent and commutative —
re-running the pipeline over the same raw-posting batch any number of
times leaves the canonical set, its per-fingerprint ids and its merged
field values unchanged, and processing the raw postings of two sources in
either order produces the same merged canonical set. -/
theorem dedup_idempotent_commutative :
    (∀ (l : List RawPosting) (n : Nat),
        (fun s => runPipeline s l)^[n + 1] emptyIndex = runPipeline emptyIndex l) ∧
      ∀ xs ys : List RawPosting,
        runPipeline emptyIndex (xs ++ ys) = runPipeline emptyIndex (ys ++ xs) := by
  constructor
  · intro l n
    induction n with
    | zero => rfl
    | succ k ih =>
      rw [Function.iterate_succ_apply', ih]
      exact runPipeline_twice emptyIndex l
  · intro xs ys
    haveI : RightCommutative ingest := ⟨fun s a b => ingest_ingest_comm s a b⟩
    exact List.perm_append_comm.foldl_eq emptyIndex

end EasyInterns
